import Mathlib

/-!
Verification of `python_env_setup.py`, an interactive helper that installs
pyenv / pyenv-virtualenv and a chosen CPython version.

Shallow embedding conventions:
* Python text is modelled as `String` (a wrapper around `List Char`); the
  Python string primitives the script uses (`str.lower`, `str.strip`,
  `x in s` substring tests, `str.splitlines`, `str.isdigit`, `int(...)`)
  are re-implemented below as executable Lean functions over `List Char`.
* File system reads are modelled by the `FileRead` type: a file is absent,
  present but unreadable (reading raises `OSError`), or readable with a
  given content.
* The interactive read loops consume an explicit list of input lines; an
  exhausted input list means the loop would block waiting for the user.
* Sub-process results (`pyenv install --list`, `pyenv versions --bare`,
  `pyenv install v`) enter the model as oracle parameters.
* Python dicts (the process-environment mapping) are mutable objects passed
  by reference; this is modelled with an explicit heap of `PyDict` objects,
  so in-place mutation and aliasing are observable.
-/

set_option maxRecDepth 8000

namespace PythonEnvSetup

/-! ### Python text primitives -/

/-- Number of positions of `hay` at which `pat` occurs as a substring
(counting every start position, so overlapping occurrences all count). -/
def occ (pat : List Char) : List Char → Nat
  | [] => if pat.isPrefixOf ([] : List Char) then 1 else 0
  | c :: rest => (if pat.isPrefixOf (c :: rest) then 1 else 0) + occ pat rest

/-- Python's substring test `pat in hay`. -/
def containsSub (pat hay : List Char) : Bool := decide (occ pat hay ≠ 0)

/-- Python `str.lower()` (per-character lowering; the script only ever
lowers ASCII data before comparing against ASCII markers). -/
def pyLower (s : String) : String := ⟨s.data.map Char.toLower⟩

/-- Python `str.strip()`: remove leading and trailing whitespace. -/
def pyStrip (s : String) : String :=
  ⟨((s.data.dropWhile Char.isWhitespace).reverse.dropWhile Char.isWhitespace).reverse⟩

/-- Split a character list at newline characters (`str.splitlines` for
`\n`-separated text; the script's inputs are stdout of Unix tools). -/
def splitOnNL : List Char → List (List Char)
  | [] => [[]]
  | c :: rest =>
    if c = '\n' then [] :: splitOnNL rest
    else
      match splitOnNL rest with
      | h :: t => (c :: h) :: t
      | [] => [[c]]

/-- The lines of a string, as strings. -/
def splitLines (s : String) : List String := (splitOnNL s.data).map fun cs => ⟨cs⟩

/-- Python `str.isdigit()` restricted to ASCII: nonempty and all digits. -/
def pyIsDigitStr (s : String) : Bool := !s.data.isEmpty && s.data.all Char.isDigit

/-- Python `int(...)` on an all-digit string. -/
def pyInt (cs : List Char) : Nat := cs.foldl (fun a c => a * 10 + (c.toNat - 48)) 0

/-! ### The version pattern (`re.fullmatch(r"\d+\.\d+\.\d+", v)`,
`python_env_setup.py` lines 416 and 451) -/

/-- Recognizer for the full-match of the regex `\d+\.\d+\.\d+` on a
character list: a nonempty digit run, a dot, a nonempty digit run, a dot,
a nonempty digit run, end of input. -/
def versionTriple (cs : List Char) : Bool :=
  let d1 := cs.takeWhile Char.isDigit
  let r1 := cs.dropWhile Char.isDigit
  match r1 with
  | '.' :: r2 =>
    let d2 := r2.takeWhile Char.isDigit
    let r3 := r2.dropWhile Char.isDigit
    match r3 with
    | '.' :: r4 =>
      let d3 := r4.takeWhile Char.isDigit
      let r5 := r4.dropWhile Char.isDigit
      !d1.isEmpty && !d2.isEmpty && !d3.isEmpty && r5.isEmpty
    | _ => false
  | _ => false

/-- `re.fullmatch(r"\d+\.\d+\.\d+", s)` as a Bool on strings. -/
def isVersionTriple (s : String) : Bool := versionTriple s.data

/-- Specification-side reading of "a dotted triple of non-negative
integers": the character data decomposes into three nonempty all-digit
runs separated by single dots. -/
def DottedTriple (s : String) : Prop :=
  ∃ a b c : List Char,
    a ≠ [] ∧ (∀ ch ∈ a, ch.isDigit = true) ∧
    b ≠ [] ∧ (∀ ch ∈ b, ch.isDigit = true) ∧
    c ≠ [] ∧ (∀ ch ∈ c, ch.isDigit = true) ∧
    s.data = a ++ '.' :: (b ++ '.' :: c)

/-! ### Environment detection (`detect_environment`, lines 104-146) -/

/-- Outcome of reading a file: raising `OSError` on open/read is
distinguished from the file not existing (`Path.is_file()` false). -/
inductive FileRead where
  | absent
  | unreadable
  | readable (content : String)
deriving DecidableEq

/-- Result of `detect_environment`: either a classification string, or an
uncaught `OSError` escaping the function. -/
inductive DetectResult where
  | ok (label : String)
  | oserror
deriving DecidableEq

/-- `"microsoft" in ver or "wsl" in ver` where `ver` is the lowered
content of `/proc/version` (line 128). -/
def hasWSLMarker (s : String) : Bool :=
  containsSub "microsoft".data (pyLower s).data || containsSub "wsl".data (pyLower s).data

/-- `"ubuntu" in data` where `data` is the lowered content of
`/etc/os-release` (lines 132 and 141). -/
def hasUbuntuMarker (s : String) : Bool :=
  containsSub "ubuntu".data (pyLower s).data

/-- Lines 139-144: the regular-Linux check of `/etc/os-release`. Reading
an existing file here is NOT guarded by a try/except, so a read failure
propagates `OSError` out of `detect_environment`. -/
def linuxOsReleaseCheck (os : FileRead) : DetectResult :=
  match os with
  | .readable d => if hasUbuntuMarker d then .ok "ubuntu" else .ok "other"
  | .absent => .ok "other"
  | .unreadable => .oserror

/-- `detect_environment()` (lines 104-146): `sys` is
`platform.system()`, `proc` the state of `/proc/version`, `os` the state
of `/etc/os-release`. The try/except at lines 125-136 catches `OSError`
from both the `/proc/version` read and the `/etc/os-release` read inside
the WSL branch; control then falls through to line 139. -/
def detect_environment (sys : String) (proc os : FileRead) : DetectResult :=
  if pyLower sys = "darwin" then .ok "macos"
  else if pyLower sys = "windows" then .ok "windows"
  else if pyLower sys = "linux" then
    match proc with
    | .readable v =>
      if hasWSLMarker v then
        match os with
        | .readable d => if hasUbuntuMarker d then .ok "wsl_ubuntu" else .ok "other"
        | .absent => .ok "other"
        | .unreadable => linuxOsReleaseCheck os
      else linuxOsReleaseCheck os
    | _ => linuxOsReleaseCheck os
  else .ok "other"

/-! ### Listing and picking a version
(`list_available_versions` lines 403-421, `prompt_for_version` lines 424-461) -/

/-- `list_available_versions` (lines 403-421): `fetched` is the captured
stdout of `pyenv install --list`, or `none` if the command failed
(`CalledProcessError` is caught and `[]` returned). Each line is stripped
and kept only if it full-matches the version pattern. -/
def list_available_versions (fetched : Option String) : List String :=
  match fetched with
  | none => []
  | some out => ((splitLines out).map pyStrip).filter isVersionTriple

/-- `versions[-15:]` (line 430): the displayed slice, i.e. the last
`min (length, 15)` entries. -/
def latestSlice (versions : List String) : List String :=
  versions.drop (versions.length - 15)

/-- State of the read loop of `prompt_for_version` (lines 437-460).
`confirming pending` is the state inside the nested `ask_yes_no` call at
lines 453-456 (its own retry loop is inlined here): `pending` is the
typed version string awaiting confirmation. -/
inductive PickState where
  | choosing
  | confirming (pending : String)
deriving DecidableEq

/-- The read loop of `prompt_for_version` (lines 437-460), consuming one
input line per iteration. Result: `none` if the inputs ran out (the
script would keep prompting), `some none` for the quit sentinel
(Python `None`), `some (some v)` for a selected version `v`.

In state `confirming`, the `ask_yes_no` prompt of lines 453-456 is
answered: its default is `True`, so an empty answer accepts; `y`/`yes`
accepts, `n`/`no` declines (the outer loop then re-prompts), anything
else re-asks the question. -/
def promptLoop (versions latest : List String) : PickState → List String → Option (Option String)
  | _, [] => none
  | .confirming pv, a :: rest =>
    let ans := pyLower (pyStrip a)
    if ans.data.isEmpty then some (some pv)
    else if ans = "y" ∨ ans = "yes" then some (some pv)
    else if ans = "n" ∨ ans = "no" then promptLoop versions latest .choosing rest
    else promptLoop versions latest (.confirming pv) rest
  | .choosing, c :: rest =>
    let choice := pyStrip c
    if choice.data.isEmpty then promptLoop versions latest .choosing rest
    else if pyLower choice = "q" ∨ pyLower choice = "quit" ∨ pyLower choice = "exit" then
      some none
    else if pyIsDigitStr choice then
      -- lines 444-449: idx = int(choice) - 1; accept iff 0 <= idx < len(latest)
      let idx : Int := (pyInt choice.data : Int) - 1
      if 0 ≤ idx ∧ idx < (latest.length : Int) then some (latest[idx.toNat]?)
      else promptLoop versions latest .choosing rest
    else if isVersionTriple choice then
      -- lines 451-459: an exact version; confirm only when absent from the FULL list
      if versions.contains choice then some (some choice)
      else promptLoop versions latest (.confirming choice) rest
    else promptLoop versions latest .choosing rest

/-- `prompt_for_version` (lines 424-461): fetch and filter the list; if
empty, return `None`; otherwise run the menu read loop over the last-15
slice. -/
def prompt_for_version (fetched : Option String) (inputs : List String) : Option (Option String) :=
  if (list_available_versions fetched).isEmpty then some none
  else promptLoop (list_available_versions fetched)
    (latestSlice (list_available_versions fetched)) .choosing inputs

/-- A fetched list of sixteen well-formed versions: its first entry falls
outside the displayed (last-15) slice of the menu. -/
def sixteenVersions : List String :=
  ["2.0.0", "3.0.1", "3.0.2", "3.0.3", "3.0.4", "3.0.5", "3.0.6", "3.0.7",
   "3.0.8", "3.0.9", "3.0.10", "3.0.11", "3.0.12", "3.0.13", "3.0.14", "3.0.15"]

/-! ### Appending the pyenv init snippet
(`append_to_shell_rc_if_missing`, lines 223-250) -/

/-- The marker guarding the append (line 236). -/
def pyenvInitMarker : List Char := "pyenv init".data

/-- The snippet appended on the Ubuntu path (lines 326-336), after
`dedent`: a leading newline, the six lines, a trailing newline. -/
def pyenvSnippet : String :=
  "\n# pyenv configuration\nexport PYENV_ROOT=\"$HOME/.pyenv\"\ncommand -v pyenv >/dev/null || export PATH=\"$PYENV_ROOT/bin:$PATH\"\neval \"$(pyenv init -)\"\nif command -v pyenv-virtualenv-init >/dev/null 2>&1; then\n  eval \"$(pyenv virtualenv-init -)\"\nfi\n"

/-- Python `snippet.strip("\n")`: drop leading and trailing newlines. -/
def stripNewlines (cs : List Char) : List Char :=
  ((cs.dropWhile (· = '\n')).reverse.dropWhile (· = '\n')).reverse

/-- Lines 243-247: the content written by the append branch: the old
content, a `"\n"` if the old content does not end with one (note Python's
`"".endswith("\n")` is false, so an empty file also gets it), then
`"\n" + snippet.strip("\n") + "\n"`. -/
def appendContent (snippet content : List Char) : List Char :=
  content ++ (if content.getLast? = some '\n' then [] else ['\n'])
    ++ '\n' :: (stripNewlines snippet ++ ['\n'])

/-- State of the shell rc file, as seen by the function. -/
inductive RcFile where
  | absent
  | unreadable
  | readable (content : List Char)
deriving DecidableEq

/-- `append_to_shell_rc_if_missing` (lines 223-250) as a transformer of
the rc-file state. An unreadable file returns without writing (line
240-241); an absent file gets `content = ""` and is appended to without a
marker check (lines 238-239); a readable file is appended to only when
the marker is missing (lines 234-237). -/
def append_to_shell_rc_if_missing (snippet : List Char) : RcFile → RcFile
  | .absent => .readable (appendContent snippet [])
  | .unreadable => .unreadable
  | .readable c =>
    if containsSub pyenvInitMarker c then .readable c
    else .readable (appendContent snippet c)

/-! ### Checking / installing the chosen version
(`ensure_version_installed`, lines 463-483) -/

/-- The parse of `pyenv versions --bare` output (line 470): stripped
nonempty lines. -/
def parseBareListing (out : String) : List String :=
  ((splitLines out).map pyStrip).filter (fun l => !l.data.isEmpty)

/-- `ensure_version_installed` (lines 463-483). `bareOut` is the captured
stdout of `pyenv versions --bare` (`none` if that command failed, in which
case `out = ""`); `installOk` is the oracle for whether `pyenv install
version` exits 0. Returns (success, installInvoked). -/
def ensure_version_installed (version : String) (bareOut : Option String)
    (installOk : Bool) : Bool × Bool :=
  let out := bareOut.getD ""
  let installed := parseBareListing out
  if installed.contains version then (true, false)
  else (installOk, true)

/-! ### The process-environment dict and `ensure_pyenv_in_env`
(lines 149-164): Python dicts are mutable objects passed by reference,
so the embedding uses an explicit heap of dict objects. -/

/-- A Python dict from string to string: insertion-ordered entries;
`d[k] = v` replaces in place if `k` is present, else appends. -/
structure PyDict where
  entries : List (String × String)
deriving DecidableEq

/-- `d.get(k)`. -/
def dget (d : PyDict) (k : String) : Option String :=
  (d.entries.find? (fun p => p.1 == k)).map (·.2)

/-- `d[k] = v`. -/
def dset (d : PyDict) (k v : String) : PyDict :=
  ⟨if d.entries.any (fun p => p.1 == k)
   then d.entries.map (fun p => if p.1 == k then (k, v) else p)
   else d.entries ++ [(k, v)]⟩

/-- The object heap: dict objects addressed by index. -/
abbrev Heap := List PyDict

/-- The dict object a reference points to. -/
def heapAt (h : Heap) (r : Nat) : PyDict := (h[r]?).getD ⟨[]⟩

/-- Line 158: `os.environ.get("PYENV_ROOT") or str(Path.home() / ".pyenv")`
(Python's `or` falls through on the falsy empty string as well as on a
missing key). -/
def pyenvRootOf (ambient : PyDict) (home : String) : String :=
  match dget ambient "PYENV_ROOT" with
  | some v => if v = "" then home ++ "/.pyenv" else v
  | none => home ++ "/.pyenv"

/-- `ensure_pyenv_in_env` (lines 149-164) acting on the dict object the
reference `r` points to. `ambient` is `os.environ` (read-only here: the
function reads `os.environ.get("PYENV_ROOT")` at line 158 and never
writes to it); `home` is `Path.home()`; `isDir` is the
`Path(...).is_dir()` oracle. The `env[...] = ...` statements of lines
160 and 163 mutate the referenced object in place; the function returns
the updated heap together with the reference it returns — the same
object it was given. The result is `none` when line 163's `env["PATH"]`
raises `KeyError` (PATH absent from the dict, while `env.get("PATH",
"")` at line 162 defaulted to `""`, which never contains the nonempty
`bin_dir`). -/
def ensure_pyenv_in_env_at (ambient : PyDict) (home : String) (isDir : String → Bool)
    (heap : Heap) (r : Nat) : Option (Heap × Nat) :=
  if isDir (pyenvRootOf ambient home) then
    if containsSub (pyenvRootOf ambient home ++ "/bin").data
        ((dget (dset (heapAt heap r) "PYENV_ROOT" (pyenvRootOf ambient home)) "PATH").getD
          "").data then
      some (heap.set r (dset (heapAt heap r) "PYENV_ROOT" (pyenvRootOf ambient home)), r)
    else
      match dget (dset (heapAt heap r) "PYENV_ROOT" (pyenvRootOf ambient home)) "PATH" with
      | none => none
      | some p =>
        some (heap.set r
          (dset (dset (heapAt heap r) "PYENV_ROOT" (pyenvRootOf ambient home)) "PATH"
            ((pyenvRootOf ambient home ++ "/bin") ++ ":" ++ p)), r)
  else some (heap, r)

/-- `ensure_pyenv_in_env(env)` (lines 149-164): a Python `None` argument
(line 155) first copies `os.environ` into a FRESH dict object; a dict
argument is the very object the caller holds a reference to. -/
def ensure_pyenv_in_env (ambient : PyDict) (home : String) (isDir : String → Bool)
    (heap : Heap) (envArg : Option Nat) : Option (Heap × Nat) :=
  match envArg with
  | none => ensure_pyenv_in_env_at ambient home isDir (heap ++ [ambient]) heap.length
  | some r => ensure_pyenv_in_env_at ambient home isDir heap r

/-! ### The main flow (`main` lines 628-675, `__main__` guard lines
678-683) -/

/-- The oracles `main` branches on: the detected environment name, whether
`pyenv` is on the PATH after the install flow (line 654), the picker's
result when reached (line 658), and whether installing the chosen version
succeeded (line 663). Steps that cannot affect the return value
(`maybe_set_global_version`, the demo scaffold, all printing) return
`None` in the source and are elided. -/
structure MainWorld where
  envName : String
  pyenvFound : Bool
  promptResult : Option String
  installOk : Bool

/-- The return value of `main()` (lines 628-675). Note line 659 tests
`if not version:`, which is true for Python `None` and for `""`. -/
def mainRet (w : MainWorld) : Nat :=
  if w.envName = "windows" then 0
  else if w.envName = "other" then 1
  else if !w.pyenvFound then 1
  else
    match w.promptResult with
    | none => 0
    | some v =>
      if v.data.isEmpty then 0
      else if !w.installOk then 1
      else 0

/-- The process exit code (lines 678-683): `SystemExit(main())` normally,
and a `KeyboardInterrupt` anywhere is caught once at top level and turned
into `SystemExit(1)`. -/
def programExit (interrupted : Bool) (w : MainWorld) : Nat :=
  if interrupted then 1 else mainRet w

/-! ## Lemmas about the text primitives -/

theorem takeWhile_append_all (p : Char → Bool) (l₁ l₂ : List Char)
    (h : ∀ c ∈ l₁, p c = true) :
    (l₁ ++ l₂).takeWhile p = l₁ ++ l₂.takeWhile p := by
  induction l₁ with
  | nil => simp
  | cons a t ih =>
    have ha := h a (List.mem_cons_self a t)
    simp [List.takeWhile_cons, ha, ih (fun c hc => h c (List.mem_cons_of_mem a hc))]

theorem dropWhile_append_all (p : Char → Bool) (l₁ l₂ : List Char)
    (h : ∀ c ∈ l₁, p c = true) :
    (l₁ ++ l₂).dropWhile p = l₂.dropWhile p := by
  induction l₁ with
  | nil => simp
  | cons a t ih =>
    have ha := h a (List.mem_cons_self a t)
    simp [List.dropWhile_cons, ha, ih (fun c hc => h c (List.mem_cons_of_mem a hc))]

theorem takeWhile_all (p : Char → Bool) (l : List Char) (h : ∀ c ∈ l, p c = true) :
    l.takeWhile p = l := by
  induction l with
  | nil => simp
  | cons a t ih =>
    have ha := h a (List.mem_cons_self a t)
    simp [List.takeWhile_cons, ha, ih (fun c hc => h c (List.mem_cons_of_mem a hc))]

theorem dropWhile_all (p : Char → Bool) (l : List Char) (h : ∀ c ∈ l, p c = true) :
    l.dropWhile p = [] := by
  induction l with
  | nil => simp
  | cons a t ih =>
    have ha := h a (List.mem_cons_self a t)
    simp [List.dropWhile_cons, ha, ih (fun c hc => h c (List.mem_cons_of_mem a hc))]

/-- The recognizer `versionTriple` accepts exactly the lists that split as
three nonempty digit runs separated by single dots. -/
theorem versionTriple_iff (cs : List Char) :
    versionTriple cs = true ↔
      ∃ a b c : List Char,
        a ≠ [] ∧ (∀ ch ∈ a, ch.isDigit = true) ∧
        b ≠ [] ∧ (∀ ch ∈ b, ch.isDigit = true) ∧
        c ≠ [] ∧ (∀ ch ∈ c, ch.isDigit = true) ∧
        cs = a ++ '.' :: (b ++ '.' :: c) := by
  constructor
  · intro h
    simp only [versionTriple] at h
    split at h
    case _ r2 heq1 =>
      split at h
      case _ r4 heq2 =>
        simp only [Bool.and_eq_true, Bool.not_eq_true', List.isEmpty_eq_false_iff_exists_mem,
          List.isEmpty_iff] at h
        obtain ⟨⟨⟨h1, h2⟩, h3⟩, h5⟩ := h
        refine ⟨cs.takeWhile Char.isDigit, r2.takeWhile Char.isDigit, r4, ?_, ?_, ?_, ?_, ?_, ?_, ?_⟩
        · rcases h1 with ⟨x, hx⟩; intro hn; rw [hn] at hx; exact absurd hx (List.not_mem_nil x)
        · exact fun ch hch => List.mem_takeWhile_imp hch
        · rcases h2 with ⟨x, hx⟩; intro hn; rw [hn] at hx; exact absurd hx (List.not_mem_nil x)
        · exact fun ch hch => List.mem_takeWhile_imp hch
        · rcases h3 with ⟨x, hx⟩; intro hn; rw [hn] at hx; exact absurd hx (List.not_mem_nil x)
        · -- r4 is all digits: its dropWhile is empty, so r4 = its takeWhile
          intro ch hch
          have : r4 = r4.takeWhile Char.isDigit ++ r4.dropWhile Char.isDigit :=
            (List.takeWhile_append_dropWhile ..).symm
          rw [h5, List.append_nil] at this
          rw [this] at hch
          exact List.mem_takeWhile_imp hch
        · have e1 : cs = cs.takeWhile Char.isDigit ++ cs.dropWhile Char.isDigit :=
            (List.takeWhile_append_dropWhile ..).symm
          have e2 : r2 = r2.takeWhile Char.isDigit ++ r2.dropWhile Char.isDigit :=
            (List.takeWhile_append_dropWhile ..).symm
          rw [heq1] at e1
          rw [heq2] at e2
          conv_lhs => rw [e1, e2]
      case _ hne =>
        exact absurd h (by simp)
    case _ hne =>
      exact absurd h (by simp)
  · rintro ⟨a, b, c, ha, hda, hb, hdb, hc, hdc, rfl⟩
    simp only [versionTriple]
    have hdot : Char.isDigit '.' = false := by decide
    have t1 : List.takeWhile Char.isDigit (a ++ '.' :: (b ++ '.' :: c)) = a := by
      rw [takeWhile_append_all _ _ _ hda, List.takeWhile_cons, hdot]
      simp
    have d1 : List.dropWhile Char.isDigit (a ++ '.' :: (b ++ '.' :: c)) =
        '.' :: (b ++ '.' :: c) := by
      rw [dropWhile_append_all _ _ _ hda, List.dropWhile_cons, hdot]
      simp
    have t2 : List.takeWhile Char.isDigit (b ++ '.' :: c) = b := by
      rw [takeWhile_append_all _ _ _ hdb, List.takeWhile_cons, hdot]
      simp
    have d2 : List.dropWhile Char.isDigit (b ++ '.' :: c) = '.' :: c := by
      rw [dropWhile_append_all _ _ _ hdb, List.dropWhile_cons, hdot]
      simp
    have t3 : List.takeWhile Char.isDigit c = c := takeWhile_all _ _ hdc
    have d3 : List.dropWhile Char.isDigit c = [] := dropWhile_all _ _ hdc
    simp [t1, d1, t2, d2, t3, d3, List.isEmpty_iff, ha, hb, hc]

theorem isPrefixOf_eq_true_iff (p s : List Char) :
    p.isPrefixOf s = true ↔ ∃ t, s = p ++ t := by
  induction p generalizing s with
  | nil => simp [List.isPrefixOf]
  | cons a p ih =>
    cases s with
    | nil =>
      simp [List.isPrefixOf]
    | cons b s =>
      simp only [List.isPrefixOf, Bool.and_eq_true, beq_iff_eq, ih, List.cons_append,
        List.cons.injEq]
      constructor
      · rintro ⟨rfl, t, rfl⟩; exact ⟨t, rfl, rfl⟩
      · rintro ⟨t, rfl, rfl⟩; exact ⟨rfl, t, rfl⟩

/-- A pattern without a newline that matches at the junction of `s` and a
block starting with a newline must already match within `s`. -/
theorem isPrefixOf_append_nl (p s B : List Char) (hnl : '\n' ∉ p)
    (hB : ∃ B', B = '\n' :: B') :
    p.isPrefixOf (s ++ B) = p.isPrefixOf s := by
  induction s generalizing p with
  | nil =>
    obtain ⟨B', rfl⟩ := hB
    cases p with
    | nil => simp [List.isPrefixOf]
    | cons a p =>
      have hne : (a == '\n') = false :=
        beq_eq_false_iff_ne.2 (fun h => hnl (h ▸ List.mem_cons_self a p))
      simp [List.isPrefixOf, hne]
  | cons x s ih =>
    cases p with
    | nil => simp [List.isPrefixOf]
    | cons a p =>
      simp only [List.cons_append, List.isPrefixOf, List.append_eq]
      rw [ih p (fun h => hnl (List.mem_cons_of_mem a h))]

theorem occ_nil_of_ne (p : List Char) (hp : p ≠ []) : occ p [] = 0 := by
  cases p with
  | nil => exact absurd rfl hp
  | cons a t => simp [occ, List.isPrefixOf]

/-- Occurrence counting distributes over append when the pattern has no
newline and the appended block starts with one: no occurrence straddles
the junction. -/
theorem occ_append_nl (p A B : List Char) (hp : p ≠ []) (hnl : '\n' ∉ p)
    (hB : ∃ B', B = '\n' :: B') :
    occ p (A ++ B) = occ p A + occ p B := by
  induction A with
  | nil => simp [occ_nil_of_ne p hp]
  | cons a A ih =>
    have hstep : p.isPrefixOf (a :: (A ++ B)) = p.isPrefixOf (a :: A) := by
      have h := isPrefixOf_append_nl p (a :: A) B hnl hB
      simpa using h
    simp only [List.cons_append, List.append_eq, occ, hstep, ih]
    omega

theorem containsSub_eq_false_iff (p h : List Char) :
    containsSub p h = false ↔ occ p h = 0 := by
  simp [containsSub]

theorem containsSub_eq_true_iff (p h : List Char) :
    containsSub p h = true ↔ occ p h ≠ 0 := by
  simp [containsSub]

/-! ## Lemmas about lowering -/

theorem toLower_of_isDigit (c : Char) (h : c.isDigit = true) : c.toLower = c := by
  unfold Char.toLower
  have h1 : c.val ≤ 57 := of_decide_eq_true (Bool.and_elim_right h)
  have h1' : c.val.toNat ≤ (57 : UInt32).toNat := by
    rw [UInt32.le_def] at h1; exact h1
  have e : (57 : UInt32).toNat = 57 := rfl
  have h2 : ¬ (c.toNat ≥ 65 ∧ c.toNat ≤ 90) := by
    rintro ⟨hge, _⟩
    have e2 : c.toNat = c.val.toNat := rfl
    omega
  simp [h2]

theorem toLower_dot : Char.toLower '.' = '.' := by decide

/-- `pyLower` fixes a string whose characters are all digits or dots. -/
theorem pyLower_eq_self (s : String) (h : ∀ c ∈ s.data, c.isDigit = true ∨ c = '.') :
    pyLower s = s := by
  cases s with
  | mk data =>
    simp only [pyLower]
    congr 1
    induction data with
    | nil => rfl
    | cons a t ih =>
      have ha := h a (List.mem_cons_self a t)
      have ha' : a.toLower = a := by
        rcases ha with hd | hd
        · exact toLower_of_isDigit a hd
        · rw [hd]; exact toLower_dot
      simp only [List.map_cons, ha', List.cons.injEq, true_and]
      exact ih (fun c hc => h c (List.mem_cons_of_mem a hc))

/-- An all-digit string is never one of the quit sentinels. -/
theorem digits_not_quit (s : String) (h : pyIsDigitStr s = true) :
    ¬(pyLower s = "q" ∨ pyLower s = "quit" ∨ pyLower s = "exit") := by
  simp only [pyIsDigitStr, Bool.and_eq_true, Bool.not_eq_true', List.isEmpty_eq_false_iff_exists_mem,
    List.all_eq_true] at h
  obtain ⟨-, hall⟩ := h
  have hfix : pyLower s = s := pyLower_eq_self s (fun c hc => Or.inl (hall c hc))
  rw [hfix]
  rintro (rfl | rfl | rfl)
  · exact absurd (hall 'q' (by decide)) (by decide)
  · exact absurd (hall 'q' (by decide)) (by decide)
  · exact absurd (hall 'e' (by decide)) (by decide)

/-- A version-pattern string is nonempty, is not all digits, and is not a
quit sentinel: the earlier guards of the read loop all fall through. -/
theorem versionString_guards (s : String) (h : isVersionTriple s = true) :
    s.data.isEmpty = false ∧
    ¬(pyLower s = "q" ∨ pyLower s = "quit" ∨ pyLower s = "exit") ∧
    pyIsDigitStr s = false := by
  rw [isVersionTriple, versionTriple_iff] at h
  obtain ⟨a, b, c, ha, hda, hb, hdb, hc, hdc, hs⟩ := h
  have hdotmem : '.' ∈ s.data := by
    rw [hs]
    exact List.mem_append_right a (List.mem_cons_self _ _)
  have hmix : ∀ ch ∈ s.data, ch.isDigit = true ∨ ch = '.' := by
    intro ch hch
    rw [hs] at hch
    rcases List.mem_append.1 hch with h1 | h1
    · exact Or.inl (hda ch h1)
    · rcases List.mem_cons.1 h1 with rfl | h2
      · exact Or.inr rfl
      · rcases List.mem_append.1 h2 with h3 | h3
        · exact Or.inl (hdb ch h3)
        · rcases List.mem_cons.1 h3 with rfl | h4
          · exact Or.inr rfl
          · exact Or.inl (hdc ch h4)
  refine ⟨?_, ?_, ?_⟩
  · rw [List.isEmpty_eq_false_iff_exists_mem]
    exact ⟨'.', hdotmem⟩
  · have hfix : pyLower s = s := pyLower_eq_self s hmix
    rw [hfix]
    have : ∀ t : String, '.' ∉ t.data → s ≠ t := by
      intro t ht he
      exact ht (he ▸ hdotmem)
    rintro (he | he | he)
    · exact this "q" (by decide) he
    · exact this "quit" (by decide) he
    · exact this "exit" (by decide) he
  · simp only [pyIsDigitStr, Bool.and_eq_false_iff]
    right
    rw [List.all_eq_false]
    exact ⟨'.', hdotmem, by decide⟩

/-! ## The claims -/

/-- C9: the version-pattern matcher (`re.fullmatch(r"\d+\.\d+\.\d+", ·)`)
accepts exactly the dotted triples of non-negative integers: it accepts
"3.12.4" and "0.0.1", and rejects "3.12", "3.12.4.5" and "latest". -/
theorem claim9_version_pattern :
    (∀ s : String, isVersionTriple s = true ↔ DottedTriple s) ∧
    isVersionTriple "3.12.4" = true ∧ isVersionTriple "0.0.1" = true ∧
    isVersionTriple "3.12" = false ∧ isVersionTriple "3.12.4.5" = false ∧
    isVersionTriple "latest" = false := by
  refine ⟨fun s => ?_, by decide, by decide, by decide, by decide, by decide⟩
  rw [isVersionTriple, versionTriple_iff]
  exact Iff.rfl

/-- C1: on a Linux host, with both `/proc/version` and `/etc/os-release`
readable, `detect_environment` classifies per the decision policy:
Ubuntu marker without WSL marker gives "ubuntu"; WSL marker with Ubuntu
marker gives "wsl_ubuntu"; WSL marker without Ubuntu marker gives
"other". -/
theorem claim1_detect_policy (sys pv od : String) (hsys : pyLower sys = "linux") :
    (hasWSLMarker pv = false → hasUbuntuMarker od = true →
      detect_environment sys (.readable pv) (.readable od) = .ok "ubuntu") ∧
    (hasWSLMarker pv = true → hasUbuntuMarker od = true →
      detect_environment sys (.readable pv) (.readable od) = .ok "wsl_ubuntu") ∧
    (hasWSLMarker pv = true → hasUbuntuMarker od = false →
      detect_environment sys (.readable pv) (.readable od) = .ok "other") := by
  refine ⟨fun h1 h2 => ?_, fun h1 h2 => ?_, fun h1 h2 => ?_⟩ <;>
    simp [detect_environment, linuxOsReleaseCheck, hsys, h1, h2]

/-- Witness for C1 at concrete file contents. -/
theorem claim1_detect_policy_checked :
    detect_environment "Linux" (.readable "Linux version 6.5.0-generic")
      (.readable "ID=ubuntu") = .ok "ubuntu" ∧
    detect_environment "Linux" (.readable "Linux version 5.15.0-Microsoft-standard-WSL2")
      (.readable "ID=ubuntu") = .ok "wsl_ubuntu" ∧
    detect_environment "Linux" (.readable "Linux version 5.15.0-Microsoft-standard-WSL2")
      (.readable "ID=debian") = .ok "other" :=
  ⟨(claim1_detect_policy "Linux" "Linux version 6.5.0-generic" "ID=ubuntu"
      (by decide)).1 (by decide) (by decide),
   (claim1_detect_policy "Linux" "Linux version 5.15.0-Microsoft-standard-WSL2" "ID=ubuntu"
      (by decide)).2.1 (by decide) (by decide),
   (claim1_detect_policy "Linux" "Linux version 5.15.0-Microsoft-standard-WSL2" "ID=debian"
      (by decide)).2.2 (by decide) (by decide)⟩

/-- C2 counterexample: when `/etc/os-release` exists but cannot be read,
`detect_environment` on Linux propagates the `OSError` instead of
returning a classification (the read at line 140 is outside any
try/except). This refutes "unreadable files yield \"other\" rather than
an error". -/
theorem claim2_unreadable_cex :
    detect_environment "Linux" (.readable "Linux version 6.5.0-generic") .unreadable
      = .oserror := by decide

/-- C2 amended: `detect_environment` raises exactly when the host is
Linux and `/etc/os-release` exists but is unreadable; in every other
case (including an unreadable `/proc/version` and absent files) it
returns a member of the closed enumeration; and on Linux, whenever
`/etc/os-release` is not present-but-unreadable and carries no Ubuntu
marker (it is absent, or readable with marker-free content), the result
is "other" — whatever the state and content of `/proc/version`. -/
theorem claim2_detect_amended (sys : String) (proc os : FileRead) :
    (detect_environment sys proc os = .oserror ↔
      pyLower sys = "linux" ∧ os = .unreadable) ∧
    (¬(pyLower sys = "linux" ∧ os = .unreadable) →
      ∃ r, detect_environment sys proc os = .ok r ∧
        r ∈ (["macos", "ubuntu", "wsl_ubuntu", "windows", "other"] : List String)) ∧
    (pyLower sys = "linux" → os ≠ .unreadable →
      (∀ d, os = .readable d → hasUbuntuMarker d = false) →
      detect_environment sys proc os = .ok "other") := by
  unfold detect_environment linuxOsReleaseCheck
  split_ifs with h1 h2 h3
  · simp [h1]
  · simp [h2]
  · cases proc with
    | readable v =>
      by_cases hm : hasWSLMarker v
      · cases os with
        | readable d =>
          by_cases hu : hasUbuntuMarker d <;> simp [h3, hm, hu]
        | absent => simp [h3, hm]
        | unreadable => simp [h3, hm]
      · cases os with
        | readable d =>
          by_cases hu : hasUbuntuMarker d <;> simp [h3, hm, hu]
        | absent => simp [h3, hm]
        | unreadable => simp [h3, hm]
    | absent =>
      cases os with
      | readable d => by_cases hu : hasUbuntuMarker d <;> simp [h3, hu]
      | absent => simp [h3]
      | unreadable => simp [h3]
    | unreadable =>
      cases os with
      | readable d => by_cases hu : hasUbuntuMarker d <;> simp [h3, hu]
      | absent => simp [h3]
      | unreadable => simp [h3]
  · simp [h3]

/-- Witness for the amended C2 on concrete inputs: a non-raising
non-Linux case, and a Linux case with readable marker-free contents in
both files classifying as "other". -/
theorem claim2_detect_amended_checked :
    (∃ r, detect_environment "Darwin" (.readable "kernel") .unreadable = .ok r ∧
      r ∈ (["macos", "ubuntu", "wsl_ubuntu", "windows", "other"] : List String)) ∧
    detect_environment "Linux" (.readable "Linux version 6.5.0-generic")
      (.readable "ID=debian") = .ok "other" :=
  ⟨(claim2_detect_amended "Darwin" (.readable "kernel") .unreadable).2.1 (by decide),
   (claim2_detect_amended "Linux" (.readable "Linux version 6.5.0-generic")
      (.readable "ID=debian")).2.2 (by decide) (by decide)
      (fun d hd => by cases hd; decide)⟩

/-- C8: a version present in the parsed bare listing makes
`ensure_version_installed` succeed without invoking `pyenv install`; the
install subcommand runs exactly when the version is absent from the
listing. -/
theorem claim8_short_circuit (version : String) (bareOut : Option String) (installOk : Bool) :
    ((parseBareListing (bareOut.getD "")).contains version = true →
      ensure_version_installed version bareOut installOk = (true, false)) ∧
    ((parseBareListing (bareOut.getD "")).contains version = false →
      ensure_version_installed version bareOut installOk = (installOk, true)) := by
  constructor <;> intro h <;> simp at h <;> simp [ensure_version_installed, h]

/-- Witness for C8 at a concrete listing. -/
theorem claim8_short_circuit_checked :
    ensure_version_installed "3.12.4" (some "  3.11.2\n  3.12.4\n") false = (true, false) ∧
    ensure_version_installed "3.12.9" (some "  3.11.2\n  3.12.4\n") true = (true, true) :=
  ⟨(claim8_short_circuit "3.12.4" (some "  3.11.2\n  3.12.4\n") false).1 (by decide),
   (claim8_short_circuit "3.12.9" (some "  3.11.2\n  3.12.4\n") true).2 (by decide)⟩

/-- C3: exit codes of the program. 0 on the Windows guidance path, on the
no-version-selected path and on full success; 1 when detection yields
"other", when pyenv is still missing after the install flow, when the
requested version fails to install, and on operator interruption. -/
theorem claim3_exit_codes (w : MainWorld) :
    (w.envName = "windows" → programExit false w = 0) ∧
    (w.envName = "other" → programExit false w = 1) ∧
    (w.envName ≠ "windows" → w.envName ≠ "other" → w.pyenvFound = false →
      programExit false w = 1) ∧
    (w.envName ≠ "windows" → w.envName ≠ "other" → w.pyenvFound = true →
      w.promptResult = none → programExit false w = 0) ∧
    (∀ v, w.envName ≠ "windows" → w.envName ≠ "other" → w.pyenvFound = true →
      w.promptResult = some v → v.data.isEmpty = false → w.installOk = false →
      programExit false w = 1) ∧
    (∀ v, w.envName ≠ "windows" → w.envName ≠ "other" → w.pyenvFound = true →
      w.promptResult = some v → v.data.isEmpty = false → w.installOk = true →
      programExit false w = 0) ∧
    programExit true w = 1 := by
  refine ⟨fun h1 => by simp [programExit, mainRet, h1],
      fun h1 => by simp [programExit, mainRet, h1],
      fun h1 h2 h3 => by simp [programExit, mainRet, h1, h2, h3],
      fun h1 h2 h3 h4 => by simp [programExit, mainRet, h1, h2, h3, h4],
      fun v h1 h2 h3 h4 h5 h6 => by
        have h5' : v.data ≠ [] := by simpa using h5
        simp [programExit, mainRet, h1, h2, h3, h4, h5', h6],
      fun v h1 h2 h3 h4 h5 h6 => by
        have h5' : v.data ≠ [] := by simpa using h5
        simp [programExit, mainRet, h1, h2, h3, h4, h5', h6],
      rfl⟩

/-- Witness for C3: one concrete world per exit path. -/
theorem claim3_exit_codes_checked :
    programExit false ⟨"windows", false, none, false⟩ = 0 ∧
    programExit false ⟨"other", false, none, false⟩ = 1 ∧
    programExit false ⟨"ubuntu", false, none, false⟩ = 1 ∧
    programExit false ⟨"macos", true, none, false⟩ = 0 ∧
    programExit false ⟨"ubuntu", true, some "3.12.4", false⟩ = 1 ∧
    programExit false ⟨"wsl_ubuntu", true, some "3.12.4", true⟩ = 0 ∧
    programExit true ⟨"ubuntu", true, some "3.12.4", true⟩ = 1 :=
  ⟨(claim3_exit_codes ⟨"windows", false, none, false⟩).1 rfl,
   (claim3_exit_codes ⟨"other", false, none, false⟩).2.1 rfl,
   (claim3_exit_codes ⟨"ubuntu", false, none, false⟩).2.2.1 (by decide) (by decide) rfl,
   (claim3_exit_codes ⟨"macos", true, none, false⟩).2.2.2.1 (by decide) (by decide) rfl rfl,
   (claim3_exit_codes ⟨"ubuntu", true, some "3.12.4", false⟩).2.2.2.2.1 "3.12.4"
     (by decide) (by decide) rfl rfl (by decide) rfl,
   (claim3_exit_codes ⟨"wsl_ubuntu", true, some "3.12.4", true⟩).2.2.2.2.2.1 "3.12.4"
     (by decide) (by decide) rfl rfl (by decide) rfl,
   (claim3_exit_codes ⟨"ubuntu", true, some "3.12.4", true⟩).2.2.2.2.2.2⟩

/-- Appending the block to marker-free content yields exactly one
occurrence of the marker: the appended block starts with a newline and
the marker contains none, so no occurrence straddles the junction, and
the snippet itself contains the marker exactly once. -/
theorem occ_marker_append (content : List Char)
    (h : occ pyenvInitMarker content = 0) :
    occ pyenvInitMarker (appendContent pyenvSnippet.data content) = 1 := by
  unfold appendContent
  by_cases hLast : content.getLast? = some '\n'
  · rw [if_pos hLast, List.append_assoc, List.nil_append]
    rw [occ_append_nl pyenvInitMarker content _ (by decide) (by decide) ⟨_, rfl⟩, h]
    decide
  · rw [if_neg hLast, List.append_assoc, List.singleton_append]
    rw [occ_append_nl pyenvInitMarker content _ (by decide) (by decide) ⟨_, rfl⟩, h]
    decide

/-- C7: the rc-file append is idempotent, a file already containing the
"pyenv init" marker is left unchanged, and appending to marker-free
content leaves exactly one occurrence of the marker (so the second
application changes nothing). -/
theorem claim7_append_idempotent :
    (∀ st, append_to_shell_rc_if_missing pyenvSnippet.data
        (append_to_shell_rc_if_missing pyenvSnippet.data st) =
        append_to_shell_rc_if_missing pyenvSnippet.data st) ∧
    (∀ content, containsSub pyenvInitMarker content = true →
      append_to_shell_rc_if_missing pyenvSnippet.data (.readable content) =
        .readable content) ∧
    (∀ content, containsSub pyenvInitMarker content = false →
      occ pyenvInitMarker (appendContent pyenvSnippet.data content) = 1) := by
  have key : ∀ content, containsSub pyenvInitMarker content = false →
      containsSub pyenvInitMarker (appendContent pyenvSnippet.data content) = true := by
    intro content h
    rw [containsSub_eq_true_iff]
    rw [occ_marker_append content ((containsSub_eq_false_iff ..).1 h)]
    omega
  refine ⟨?_, ?_, ?_⟩
  · intro st
    cases st with
    | absent =>
      have h0 : containsSub pyenvInitMarker [] = false := by decide
      simp [append_to_shell_rc_if_missing, key [] h0]
    | unreadable => rfl
    | readable c =>
      by_cases hc : containsSub pyenvInitMarker c = true
      · simp [append_to_shell_rc_if_missing, hc]
      · have hc' : containsSub pyenvInitMarker c = false := by simpa using hc
        simp [append_to_shell_rc_if_missing, hc', key c hc']
  · intro content h
    simp [append_to_shell_rc_if_missing, h]
  · intro content h
    exact occ_marker_append content ((containsSub_eq_false_iff ..).1 h)

/-- Witness for C7: the idempotence equation and both guarded parts at
concrete contents. -/
theorem claim7_append_idempotent_checked :
    append_to_shell_rc_if_missing pyenvSnippet.data
      (append_to_shell_rc_if_missing pyenvSnippet.data (.readable "export A=1\n".data)) =
      append_to_shell_rc_if_missing pyenvSnippet.data (.readable "export A=1\n".data) ∧
    append_to_shell_rc_if_missing pyenvSnippet.data
      (.readable "eval \"$(pyenv init -)\"\n".data) =
      .readable "eval \"$(pyenv init -)\"\n".data ∧
    occ pyenvInitMarker (appendContent pyenvSnippet.data "export A=1\n".data) = 1 :=
  ⟨claim7_append_idempotent.1 (.readable "export A=1\n".data),
   claim7_append_idempotent.2.1 "eval \"$(pyenv init -)\"\n".data (by decide),
   claim7_append_idempotent.2.2 "export A=1\n".data (by decide)⟩

/-! ## Step lemmas for the read loop -/

theorem pyIsDigitStr_not_empty (s : String) (h : pyIsDigitStr s = true) :
    s.data.isEmpty = false := by
  simp only [pyIsDigitStr, Bool.and_eq_true, Bool.not_eq_true'] at h
  exact h.1

/-- An all-digit input reaches the numeric branch: the loop step reduces
to the index test of lines 444-449. -/
theorem promptLoop_digit_step (versions latest : List String) (c : String) (rest : List String)
    (h0 : pyIsDigitStr (pyStrip c) = true) :
    promptLoop versions latest .choosing (c :: rest) =
      if 0 ≤ ((pyInt (pyStrip c).data : Int) - 1) ∧
          ((pyInt (pyStrip c).data : Int) - 1) < (latest.length : Int) then
        some (latest[(((pyInt (pyStrip c).data : Int) - 1)).toNat]?)
      else promptLoop versions latest .choosing rest := by
  have hne := pyIsDigitStr_not_empty (pyStrip c) h0
  have hq := digits_not_quit (pyStrip c) h0
  simp only [promptLoop]
  rw [if_neg (by simp [hne]), if_neg hq, if_pos h0]

/-- A version-pattern input reaches the exact-version branch: the loop
step reduces to the membership test of lines 451-459. -/
theorem promptLoop_triple_step (versions latest : List String) (c : String) (rest : List String)
    (hv : isVersionTriple (pyStrip c) = true) :
    promptLoop versions latest .choosing (c :: rest) =
      if versions.contains (pyStrip c) then some (some (pyStrip c))
      else promptLoop versions latest (.confirming (pyStrip c)) rest := by
  obtain ⟨hne, hq, hnd⟩ := versionString_guards (pyStrip c) hv
  simp only [promptLoop]
  rw [if_neg (by simp [hne]), if_neg hq, if_neg (by simp [hnd]), if_pos hv]

/-- C4: the menu shows exactly `min (N, 15)` entries taken from the end
of the fetched list; a numeric input `k` with `1 ≤ k ≤ min (N, 15)`
returns the k-th displayed entry; the numeric inputs `0` and
`min (N, 15) + 1` are rejected and the loop re-prompts on the remaining
input. -/
theorem claim4_menu_selection (versions : List String) :
    ((latestSlice versions).length = min versions.length 15) ∧
    (versions.take (versions.length - 15) ++ latestSlice versions = versions) ∧
    (∀ c rest k, pyIsDigitStr (pyStrip c) = true → pyInt (pyStrip c).data = k →
      1 ≤ k → k ≤ (latestSlice versions).length →
      ∃ v, (latestSlice versions)[k - 1]? = some v ∧
        promptLoop versions (latestSlice versions) .choosing (c :: rest) = some (some v)) ∧
    (∀ c rest, pyIsDigitStr (pyStrip c) = true →
      (pyInt (pyStrip c).data = 0 ∨
        pyInt (pyStrip c).data = (latestSlice versions).length + 1) →
      promptLoop versions (latestSlice versions) .choosing (c :: rest) =
        promptLoop versions (latestSlice versions) .choosing rest) := by
  refine ⟨?_, ?_, ?_, ?_⟩
  · simp only [latestSlice, List.length_drop]
    omega
  · exact List.take_append_drop _ _
  · intro c rest k h0 hk hk1 hk2
    have hlt : k - 1 < (latestSlice versions).length := by omega
    refine ⟨(latestSlice versions)[k - 1], List.getElem?_eq_getElem hlt, ?_⟩
    rw [promptLoop_digit_step versions (latestSlice versions) c rest h0, hk]
    rw [if_pos ⟨by omega, by omega⟩]
    have ht : (((k : Int) - 1)).toNat = k - 1 := by omega
    rw [ht, List.getElem?_eq_getElem hlt]
  · intro c rest h0 hk
    rw [promptLoop_digit_step versions (latestSlice versions) c rest h0]
    rcases hk with hk | hk <;> rw [hk, if_neg (by omega)]

/-- Witness for C4 on a three-entry list. -/
theorem claim4_menu_selection_checked :
    (latestSlice ["3.10.1", "3.11.2", "3.12.3"]).length = min 3 15 ∧
    (∃ v, (latestSlice ["3.10.1", "3.11.2", "3.12.3"])[1]? = some v ∧
      promptLoop ["3.10.1", "3.11.2", "3.12.3"] (latestSlice ["3.10.1", "3.11.2", "3.12.3"])
        .choosing ["2"] = some (some v)) ∧
    promptLoop ["3.10.1", "3.11.2", "3.12.3"] (latestSlice ["3.10.1", "3.11.2", "3.12.3"])
      .choosing ["0", "q"] =
      promptLoop ["3.10.1", "3.11.2", "3.12.3"] (latestSlice ["3.10.1", "3.11.2", "3.12.3"])
        .choosing ["q"] :=
  ⟨(claim4_menu_selection ["3.10.1", "3.11.2", "3.12.3"]).1,
   (claim4_menu_selection ["3.10.1", "3.11.2", "3.12.3"]).2.2.1 "2" [] 2
     (by decide) (by decide) (by decide) (by decide),
   (claim4_menu_selection ["3.10.1", "3.11.2", "3.12.3"]).2.2.2 "0" ["q"]
     (by decide) (Or.inl (by decide))⟩

/-- C5 counterexample: "2.0.0" matches the version pattern and lies
outside the displayed slice of the sixteen-entry menu, yet the picker
returns it immediately from a single input line — no confirmation prompt
is answered (with no further input available, a pending confirmation
could not return a selection). The code confirms only versions absent
from the FULL fetched list, not versions outside the displayed slice. -/
theorem claim5_no_confirmation_cex :
    isVersionTriple "2.0.0" = true ∧
    (latestSlice sixteenVersions).contains "2.0.0" = false ∧
    promptLoop sixteenVersions (latestSlice sixteenVersions) .choosing ["2.0.0"] =
      some (some "2.0.0") := by
  refine ⟨by decide, by decide, by decide⟩

/-- C5 amended: a typed version-pattern string found anywhere in the FULL
fetched list (even outside the displayed slice) is returned immediately
with no confirmation; only a string absent from the full list triggers
the confirmation prompt, where an empty or yes answer returns that exact
string and a no answer re-prompts the menu loop. -/
theorem claim5_literal_version_amended (versions latest : List String) (c : String)
    (rest : List String) (hv : isVersionTriple (pyStrip c) = true) :
    (versions.contains (pyStrip c) = true →
      promptLoop versions latest .choosing (c :: rest) = some (some (pyStrip c))) ∧
    (versions.contains (pyStrip c) = false →
      promptLoop versions latest .choosing (c :: rest) =
        promptLoop versions latest (.confirming (pyStrip c)) rest) ∧
    (∀ a rest2,
      ((pyLower (pyStrip a)).data.isEmpty = true ∨ pyLower (pyStrip a) = "y" ∨
          pyLower (pyStrip a) = "yes" →
        promptLoop versions latest (.confirming (pyStrip c)) (a :: rest2) =
          some (some (pyStrip c))) ∧
      (pyLower (pyStrip a) = "n" ∨ pyLower (pyStrip a) = "no" →
        promptLoop versions latest (.confirming (pyStrip c)) (a :: rest2) =
          promptLoop versions latest .choosing rest2)) := by
  refine ⟨fun h => ?_, fun h => ?_, fun a rest2 => ⟨fun h => ?_, fun h => ?_⟩⟩
  · rw [promptLoop_triple_step versions latest c rest hv]
    simp at h
    simp [h]
  · rw [promptLoop_triple_step versions latest c rest hv]
    simp at h
    simp [h]
  · rcases h with h | h | h <;> simp [promptLoop, h]
  · rcases h with h | h <;> simp [promptLoop, h]

/-- Witness for the amended C5. -/
theorem claim5_literal_version_amended_checked :
    promptLoop ["1.0.0"] ["1.0.0"] .choosing ["1.0.0"] = some (some "1.0.0") ∧
    promptLoop ["1.0.0"] ["1.0.0"] .choosing ["9.9.9", "x"] =
      promptLoop ["1.0.0"] ["1.0.0"] (.confirming "9.9.9") ["x"] ∧
    promptLoop ["1.0.0"] ["1.0.0"] (.confirming "9.9.9") ["y"] = some (some "9.9.9") ∧
    promptLoop ["1.0.0"] ["1.0.0"] (.confirming "9.9.9") ["n", "q"] =
      promptLoop ["1.0.0"] ["1.0.0"] .choosing ["q"] :=
  ⟨(claim5_literal_version_amended ["1.0.0"] ["1.0.0"] "1.0.0" [] (by decide)).1 (by decide),
   (claim5_literal_version_amended ["1.0.0"] ["1.0.0"] "9.9.9" ["x"] (by decide)).2.1 (by decide),
   ((claim5_literal_version_amended ["1.0.0"] ["1.0.0"] "9.9.9" [] (by decide)).2.2 "y" []).1
     (Or.inr (Or.inl (by decide))),
   ((claim5_literal_version_amended ["1.0.0"] ["1.0.0"] "9.9.9" [] (by decide)).2.2 "n" ["q"]).2
     (Or.inl (by decide))⟩

/-- Invariant of the read loop: when every displayed entry matches the
version pattern and any pending confirmation string does too, a returned
selection matches the version pattern. -/
theorem promptLoop_result_valid (versions latest : List String)
    (hl : ∀ x ∈ latest, isVersionTriple x = true) :
    ∀ (inputs : List String) (st : PickState),
      (∀ pv, st = .confirming pv → isVersionTriple pv = true) →
      ∀ v, promptLoop versions latest st inputs = some (some v) →
        isVersionTriple v = true := by
  intro inputs
  induction inputs with
  | nil =>
    intro st hst v h
    cases st <;> simp [promptLoop] at h
  | cons a rest ih =>
    intro st hst v h
    cases st with
    | confirming pv =>
      simp only [promptLoop] at h
      split_ifs at h with h1 h2 h3
      · exact (Option.some.inj (Option.some.inj h)) ▸ hst pv rfl
      · exact (Option.some.inj (Option.some.inj h)) ▸ hst pv rfl
      · exact ih .choosing (fun pv' hpv' => by cases hpv') v h
      · exact ih (.confirming pv) hst v h
    | choosing =>
      simp only [promptLoop] at h
      split_ifs at h with h1 h2 h3 h4 h5 h6
      · exact ih .choosing (fun pv' hpv' => by cases hpv') v h
      · exact absurd (Option.some.inj h) (by simp)
      · exact hl v (List.getElem?_mem (Option.some.inj h))
      · exact ih .choosing (fun pv' hpv' => by cases hpv') v h
      · obtain rfl : pyStrip a = v := Option.some.inj (Option.some.inj h)
        exact h5
      · refine ih (.confirming (pyStrip a)) ?_ v h
        intro pv' hpv'
        injection hpv' with e
        exact e ▸ h5
      · exact ih .choosing (fun pv' hpv' => by cases hpv') v h

/-- C10: whatever the fetched list and the sequence of user inputs, a
selection returned by `prompt_for_version` matches the strict
major.minor.patch pattern — both the menu-index path and the
literal-string path only ever return pattern-matching strings. -/
theorem claim10_picker_invariant (fetched : Option String) (inputs : List String) (v : String)
    (h : prompt_for_version fetched inputs = some (some v)) :
    isVersionTriple v = true := by
  unfold prompt_for_version at h
  split_ifs at h with he
  · exact absurd (Option.some.inj h) (by simp)
  · refine promptLoop_result_valid (list_available_versions fetched) _ ?_ inputs .choosing
      (fun pv hpv => by cases hpv) v h
    intro x hx
    have hx' : x ∈ list_available_versions fetched := List.drop_subset _ _ hx
    cases fetched with
    | none => simp [list_available_versions] at hx'
    | some out =>
      simp only [list_available_versions] at hx'
      exact List.of_mem_filter hx'

/-- Witness for C10: a concrete run through the menu path. -/
theorem claim10_picker_invariant_checked : isVersionTriple "3.12.4" = true :=
  claim10_picker_invariant (some "3.11.2\n3.12.4\n") ["2"] "3.12.4" (by decide)

/-! ## Lemmas about the dict heap -/

theorem find?_replace_ne (l : List (String × String)) (k v k' : String) (h : k' ≠ k) :
    (l.map (fun p => if p.1 == k then (k, v) else p)).find? (fun p => p.1 == k') =
      l.find? (fun p => p.1 == k') := by
  induction l with
  | nil => rfl
  | cons p l ih =>
    simp only [List.map_cons]
    by_cases hp : (p.1 == k) = true
    · have hp' : p.1 = k := by simpa using hp
      rw [if_pos hp]
      have e1 : ((k, v).1 == k') = false := beq_eq_false_iff_ne.2 (Ne.symm h)
      have e2 : (p.1 == k') = false := by rw [hp']; exact beq_eq_false_iff_ne.2 (Ne.symm h)
      simp only [List.find?_cons, e1, e2]
      exact ih
    · rw [if_neg hp]
      by_cases hk' : (p.1 == k') = true
      · simp only [List.find?_cons, hk']
      · have hk'' : (p.1 == k') = false := by simpa using hk'
        simp only [List.find?_cons, hk'']
        exact ih

/-- In-place update of one key leaves every other key's value unchanged. -/
theorem dget_dset_ne (d : PyDict) (k v k' : String) (h : k' ≠ k) :
    dget (dset d k v) k' = dget d k' := by
  simp only [dget, dset]
  by_cases hany : d.entries.any (fun p => p.1 == k) = true
  · rw [if_pos hany, find?_replace_ne d.entries k v k' h]
  · rw [if_neg hany, List.find?_append]
    have e0 : List.find? (fun p => p.1 == k') [(k, v)] = none := by
      have e1 : ((k, v).1 == k') = false := beq_eq_false_iff_ne.2 (Ne.symm h)
      rw [List.find?_cons_of_neg _ (by simp [e1])]
      rfl
    rw [e0, Option.or_none]

theorem heapAt_set_self (h : Heap) (r : Nat) (d : PyDict) (hr : r < h.length) :
    heapAt (h.set r d) r = d := by
  simp [heapAt, List.getElem?_set_self hr]

/-- C6 counterexample: `ensure_pyenv_in_env` mutates the dict object the
caller passed, in place. The single heap object is changed by the call
although the caller never re-assigned anything: under Python's
pass-by-object-reference semantics the caller's mapping now holds the
augmented PATH and PYENV_ROOT. This refutes "mutations are local and do
not leak back unless explicitly re-assigned". -/
theorem claim6_inplace_mutation_cex :
    ensure_pyenv_in_env ⟨[("PATH", "/usr/bin")]⟩ "/home/u" (fun _ => true)
        [⟨[("PATH", "/usr/bin")]⟩] (some 0) =
      some ([⟨[("PATH", "/home/u/.pyenv/bin:/usr/bin"),
        ("PYENV_ROOT", "/home/u/.pyenv")]⟩], 0) ∧
    heapAt [⟨[("PATH", "/home/u/.pyenv/bin:/usr/bin"), ("PYENV_ROOT", "/home/u/.pyenv")]⟩] 0 ≠
      heapAt [⟨[("PATH", "/usr/bin")]⟩] 0 := by
  exact ⟨by decide, by decide⟩

/-- C6 amended: the mapping is passed by object reference and
`ensure_pyenv_in_env` mutates it in place, so its updates are visible to
the caller whether or not the result is re-assigned; but the effect is
confined — the same reference is returned, no other heap object is
touched, and on the passed dict only the keys PYENV_ROOT and PATH can
change. The ambient `os.environ` is only ever read (it appears as a
read-only parameter). -/
theorem claim6_env_mutation_amended (ambient : PyDict) (home : String) (isDir : String → Bool)
    (heap : Heap) (r : Nat) (heap2 : Heap) (r2 : Nat)
    (h : ensure_pyenv_in_env ambient home isDir heap (some r) = some (heap2, r2)) :
    r2 = r ∧ heap2.length = heap.length ∧
    (∀ i, i ≠ r → heap2[i]? = heap[i]?) ∧
    (∀ k, k ≠ "PYENV_ROOT" → k ≠ "PATH" →
      dget (heapAt heap2 r) k = dget (heapAt heap r) k) := by
  have ha : ensure_pyenv_in_env_at ambient home isDir heap r = some (heap2, r2) := h
  clear h
  unfold ensure_pyenv_in_env_at at ha
  split_ifs at ha with h1 h2
  · have h' := Option.some.inj ha
    obtain ⟨he, hr⟩ : heap.set r (dset (heapAt heap r) "PYENV_ROOT" (pyenvRootOf ambient home))
        = heap2 ∧ r = r2 := ⟨congrArg Prod.fst h', congrArg Prod.snd h'⟩
    subst he
    subst hr
    refine ⟨rfl, List.length_set .., fun i hi => List.getElem?_set_ne (Ne.symm hi),
      fun k hk1 hk2 => ?_⟩
    by_cases hrl : r < heap.length
    · rw [heapAt_set_self heap r _ hrl, dget_dset_ne _ _ _ _ hk1]
    · rw [List.set_eq_of_length_le (by omega)]
  · split at ha
    · exact absurd ha (by simp)
    next p heq =>
      have h' := Option.some.inj ha
      obtain ⟨he, hr⟩ : heap.set r (dset (dset (heapAt heap r) "PYENV_ROOT"
            (pyenvRootOf ambient home)) "PATH" ((pyenvRootOf ambient home ++ "/bin") ++ ":" ++ p))
          = heap2 ∧ r = r2 := ⟨congrArg Prod.fst h', congrArg Prod.snd h'⟩
      subst he
      subst hr
      refine ⟨rfl, List.length_set .., fun i hi => List.getElem?_set_ne (Ne.symm hi),
        fun k hk1 hk2 => ?_⟩
      by_cases hrl : r < heap.length
      · rw [heapAt_set_self heap r _ hrl, dget_dset_ne _ _ _ _ hk2,
        dget_dset_ne _ _ _ _ hk1]
      · rw [List.set_eq_of_length_le (by omega)]
  · have h' := Option.some.inj ha
    obtain ⟨he, hr⟩ : heap = heap2 ∧ r = r2 := ⟨congrArg Prod.fst h', congrArg Prod.snd h'⟩
    subst he
    subst hr
    exact ⟨rfl, rfl, fun i _ => rfl, fun k _ _ => rfl⟩

/-- Witness for the amended C6: the frame property at the concrete
mutating call — every key other than PYENV_ROOT and PATH is unchanged. -/
theorem claim6_env_mutation_amended_checked :
    dget (heapAt [⟨[("PATH", "/home/u/.pyenv/bin:/usr/bin"),
        ("PYENV_ROOT", "/home/u/.pyenv")]⟩] 0) "HOME" =
      dget (heapAt [⟨[("PATH", "/usr/bin")]⟩] 0) "HOME" :=
  (claim6_env_mutation_amended ⟨[("PATH", "/usr/bin")]⟩ "/home/u" (fun _ => true)
      [⟨[("PATH", "/usr/bin")]⟩] 0
      [⟨[("PATH", "/home/u/.pyenv/bin:/usr/bin"), ("PYENV_ROOT", "/home/u/.pyenv")]⟩] 0
      (by decide)).2.2.2 "HOME" (by decide) (by decide)

end PythonEnvSetup
